import Mathlib

/-!
Verification of the socapp ingestion pipeline (Zscaler log parser, anomaly
detector, risk aggregator, ingestion orchestrator) against its specification.
The definitions below are shallow embeddings of the Python sources in
backend/services/log_parser.py, backend/services/anomaly_detector.py,
backend/services/risk_scorer.py and backend/routes/logs.py.
-/

/-! ## CSV line splitting (csv.reader on one physical line)

The parser calls the Python csv module with the default dialect (separator
is a comma, fields may be double-quoted, an embedded quote is doubled).
The orchestrator strips newlines before calling, so we model the dialect on
a single physical line.  An empty line produces no row at all (the source's
StopIteration path), which we model as none. -/

/-- The startswith(("http://", "https://")) test of _extract_domain. -/
def has_scheme (url : String) : Bool :=
  "http://".data.isPrefixOf url.data || "https://".data.isPrefixOf url.data

/-- The netloc-or-path extraction urlparse performs on a url that starts
with http:// or https://: tab, carriage-return and newline characters are
removed, netloc runs up to the first slash, question mark or hash, and a
mismatched square bracket in the netloc raises (modelled as none). -/
def urlsplitDomain (u : String) : Option String :=
  let cs := u.data.filter fun c => decide (c ≠ '\t' ∧ c ≠ '\r' ∧ c ≠ '\n')
  let rest := if "https://".data.isPrefixOf cs then cs.drop 8 else cs.drop 7
  let netloc := rest.takeWhile fun c => decide (c ≠ '/' ∧ c ≠ '?' ∧ c ≠ '#')
  if (netloc.contains '[' != netloc.contains ']') then none
  else
    let path := (rest.drop netloc.length).takeWhile fun c => decide (c ≠ '?' ∧ c ≠ '#')
    some (String.mk (if netloc = [] then path.takeWhile (fun c => decide (c ≠ '/')) else netloc))

/-- Manual fallback of _extract_domain (the except branch): remove scheme
literals, take text before the first slash, strip the port. -/
def domainFallback (url : String) : String :=
  let u := (url.replace "http://" "").replace "https://" ""
  let d := u.data.takeWhile fun c => decide (c ≠ '/')
  String.mk (d.takeWhile fun c => decide (c ≠ ':'))

/-- ZscalerLogParser._extract_domain. -/
def extract_domain (url : String) : String :=
  if url = "" then ""
  else
    let u := if has_scheme url then url else "http://" ++ url
    match urlsplitDomain u with
    | some d => String.mk (d.data.takeWhile fun c => decide (c ≠ ':'))
    | none => domainFallback u

/-! ## Parsed log entry and parse_line -/

/-- ParsedLogEntry of log_parser.py; the timestamp is carried as seconds
since the epoch (Python datetime values compare and subtract as absolute
points on the timeline). -/
structure ParsedLogEntry where
  timestamp : Int
  location : String
  protocol : String
  url : String
  domain : String
  action : String
  app_name : String
  app_class : String
  throttle_req_size : Int
  throttle_resp_size : Int
  req_size : Int
  resp_size : Int
  url_class : String
  url_supercat : String
  url_cat : String
  dlp_dict : String
  dlp_eng : String
  dlp_hits : Int
  file_class : String
  file_type : String
  location2 : String
  department : String
  client_ip : String
  server_ip : String
  http_method : String
  http_status : Int
  user_agent : String
  threat_category : String
  fw_filter : String
  fw_rule : String
  policy_type : String
  reason : String
deriving DecidableEq, Repr

/-- AnomalyResult of anomaly_detector.py; confidence is carried as an
exact rational (the Python float literals 0.6, 0.65, 0.7, 0.8, 0.95 are
only compared, and their ordering agrees with the rational one). -/
structure AnomalyResult where
  is_anomalous : Bool
  anomaly_type : Option String := none
  reason : Option String := none
  confidence : Option ℚ := none
deriving DecidableEq, Repr

def MALICIOUS_DOMAINS : List String :=
  ["phishing-login.co", "suspicious-domain.xyz", "malicious-example.ru"]

def RISKY_CATEGORIES : List String :=
  ["Proxy Avoidance", "Malware", "Phishing", "File Sharing"]

def UNUSUAL_UA_PATTERNS : List String := ["curl/", "python-requests/"]

def LARGE_DOWNLOAD_THRESHOLD : Int := 50000000

def BURST_WINDOW_MINUTES : Int := 5

def BURST_THRESHOLD : Nat := 10

/-- The Python substring test (pattern in user_agent). -/
def containsSub (hay pat : String) : Bool :=
  decide (pat.data <:+: hay.data)

/-- The filter of _detect_burst_blocked: recent entries at or after the
window start, with action Blocked, sharing client address or department
with the current entry. -/
def recentBlocked (entry : ParsedLogEntry) (recent_entries : List ParsedLogEntry) :
    List ParsedLogEntry :=
  let window_start := entry.timestamp - BURST_WINDOW_MINUTES * 60
  recent_entries.filter fun e =>
    decide (window_start ≤ e.timestamp ∧ e.action = "Blocked" ∧
      (e.client_ip = entry.client_ip ∨ e.department = entry.department))

/-- AnomalyDetector._detect_burst_blocked. -/
def detect_burst_blocked (entry : ParsedLogEntry)
    (recent_entries : List ParsedLogEntry) : AnomalyResult :=
  if entry.action ≠ "Blocked" then { is_anomalous := false }
  else
    let total_blocked := (recentBlocked entry recent_entries).length + 1
    if BURST_THRESHOLD ≤ total_blocked then
      { is_anomalous := true
        anomaly_type := some "burst_blocked"
        reason := some ("Burst of " ++ toString total_blocked ++
          " blocked requests from " ++ entry.client_ip ++ " in 5-minute window")
        confidence := some (mkRat 8 10) }
    else { is_anomalous := false }

/-- Sort key of the source (x.confidence; every candidate carries one). -/
def confKey (r : AnomalyResult) : ℚ := r.confidence.getD 0

/-- First element of the stable descending sort by confidence: a later
candidate replaces the best one only when strictly more confident. -/
def pickBest (c : AnomalyResult) (rest : List AnomalyResult) : AnomalyResult :=
  rest.foldl (fun best cand => if confKey best < confKey cand then cand else best) c

/-- AnomalyDetector.detect_anomalies: evaluate the five rules in source
order, collect the firing candidates, return the highest-confidence one
(or the empty non-anomalous result).  The large-download reason abstracts
the two-decimal megabyte formatting of the source. -/
def detect_anomalies (entry : ParsedLogEntry)
    (recent_entries : List ParsedLogEntry) : AnomalyResult :=
  let anomalies : List AnomalyResult :=
    (if entry.domain ∈ MALICIOUS_DOMAINS then
      [{ is_anomalous := true
         anomaly_type := some "malicious_domain"
         reason := some ("Domain " ++ entry.domain ++ " is in malicious domains list")
         confidence := some (mkRat 95 100) }] else []) ++
    (if entry.url_cat ∈ RISKY_CATEGORIES then
      [{ is_anomalous := true
         anomaly_type := some "risky_category"
         reason := some ("URL category " ++ entry.url_cat ++ " is considered risky")
         confidence := some (mkRat 7 10) }] else []) ++
    (if UNUSUAL_UA_PATTERNS.any (fun p => containsSub entry.user_agent p) then
      [{ is_anomalous := true
         anomaly_type := some "unusual_ua"
         reason := some ("Unusual user agent detected: " ++
           ((UNUSUAL_UA_PATTERNS.find? fun p => containsSub entry.user_agent p).getD ""))
         confidence := some (mkRat 6 10) }] else []) ++
    (if LARGE_DOWNLOAD_THRESHOLD < entry.resp_size then
      [{ is_anomalous := true
         anomaly_type := some "large_download"
         reason := some "Large download detected"
         confidence := some (mkRat 65 100) }] else []) ++
    (let burst_result := detect_burst_blocked entry recent_entries
     if burst_result.is_anomalous then [burst_result] else [])
  match anomalies with
  | [] => { is_anomalous := false }
  | c :: rest => pickBest c rest

/-! ## Risk scorer (risk_scorer.py) -/

/-- The projection of a persisted LogEntry that
calculate_user_risk_scores reads (the pipeline fills department and
client_ip with the parsed strings; a NULL department is modelled by the
empty string, which Python treats as falsy the same way). -/
structure RiskEntry where
  department : String
  client_ip : String
  action : String
  is_anomalous : Bool
  anomaly_type : Option String
deriving DecidableEq, Repr

/-- The user identifier: department or str(client_ip). -/
def userIdOf (e : RiskEntry) : String :=
  if e.department = "" then e.client_ip else e.department

/-- The per-user tallies accumulated by calculate_user_risk_scores. -/
structure UserStats where
  anomaly_count : Nat
  blocked_count : Nat
  malicious_domain_count : Nat
  total_requests : Nat
  by_anomaly_type : List (String × Nat)
deriving DecidableEq, Repr

def emptyStats : UserStats := ⟨0, 0, 0, 0, []⟩

/-- Increment one key of the by_anomaly_type mapping (insertion order
preserved, as a Python dict does). -/
def bumpType : List (String × Nat) → String → List (String × Nat)
  | [], k => [(k, 1)]
  | (a, n) :: rest, k =>
      if a = k then (a, n + 1) :: rest else (a, n) :: bumpType rest k

/-- entry.anomaly_type or "unknown" (None and the empty string are falsy). -/
def anomalyKey (e : RiskEntry) : String :=
  match e.anomaly_type with
  | none => "unknown"
  | some t => if t = "" then "unknown" else t

/-- One loop iteration of calculate_user_risk_scores over one entry. -/
def stepStats (s : UserStats) (e : RiskEntry) : UserStats :=
  let s := { s with total_requests := s.total_requests + 1 }
  let s :=
    if e.is_anomalous then
      { s with anomaly_count := s.anomaly_count + 1
               by_anomaly_type := bumpType s.by_anomaly_type (anomalyKey e) }
    else s
  let s := if e.action = "Blocked" then { s with blocked_count := s.blocked_count + 1 } else s
  if e.anomaly_type = some "malicious_domain" then
    { s with malicious_domain_count := s.malicious_domain_count + 1 }
  else s

/-- Update the stats mapping at the identity of one entry (first matching
key updated in place, new keys appended, as a Python dict does). -/
def updAt : List (String × UserStats) → String → RiskEntry → List (String × UserStats)
  | [], uid, e => [(uid, stepStats emptyStats e)]
  | (k, s) :: rest, uid, e =>
      if k = uid then (k, stepStats s e) :: rest
      else (k, s) :: updAt rest uid e

/-- The user_stats accumulation loop of calculate_user_risk_scores. -/
def user_stats (entries : List RiskEntry) : List (String × UserStats) :=
  entries.foldl (fun m e => updAt m (userIdOf e) e) []

/-- The capped score formula of calculate_user_risk_scores. -/
def risk_score_of (s : UserStats) : Nat :=
  let anomaly_score := min (s.anomaly_count * 10) 50
  let blocked_score := min (s.blocked_count * 5) 30
  let malicious_score := min (s.malicious_domain_count * 20) 40
  min (anomaly_score + blocked_score + malicious_score) 100

/-- One row of the result mapping of calculate_user_risk_scores. -/
structure RiskScore where
  user_identifier : String
  risk_score : Nat
  anomaly_count : Nat
  blocked_count : Nat
  malicious_domain_count : Nat
  metadata : List (String × Nat)
deriving DecidableEq, Repr

def risk_row (uid : String) (s : UserStats) : RiskScore :=
  { user_identifier := uid
    risk_score := risk_score_of s
    anomaly_count := s.anomaly_count
    blocked_count := s.blocked_count
    malicious_domain_count := s.malicious_domain_count
    metadata := s.by_anomaly_type }

/-- calculate_user_risk_scores (the unused log_file_id parameter of the
source is dropped): tally per user identity, then map each group to its
risk-score row. -/
def calculate_user_risk_scores (entries : List RiskEntry) :
    List (String × RiskScore) :=
  (user_stats entries).map fun p => (p.1, risk_row p.1 p.2)

/-- Ordered-mapping lookup (first matching key). -/
def flook : List (String × α) → String → Option α
  | [], _ => none
  | (k, v) :: rest, uid => if k = uid then some v else flook rest uid

/-- The tallies of one user identity, computed directly from exactly the
entries whose own identity it is. -/
def statsFor (entries : List RiskEntry) (uid : String) : UserStats :=
  (entries.filter fun e => decide (userIdOf e = uid)).foldl stepStats emptyStats

/-! ## Ingestion orchestrator (_process_log_file in routes/logs.py)

The rolling history recent_entries_by_ip is modelled as a total function
from client address to the entry list (a missing dict key and an empty
list are indistinguishable through the .get(ip, []) access the source
uses). -/

/-- Append one event to its client's history, dropping the oldest entry
once the per-client list exceeds 20 (the pop(0) of process_batch). -/
def step_history (h : String → List ParsedLogEntry) (e : ParsedLogEntry) :
    String → List ParsedLogEntry :=
  fun ip =>
    if ip = e.client_ip then
      let l := h e.client_ip ++ [e]
      if 20 < l.length then l.tail else l
    else h ip

def emptyHistory : String → List ParsedLogEntry := fun _ => []

/-- The history after a sequence of events has been processed. -/
def run_history (events : List ParsedLogEntry) : String → List ParsedLogEntry :=
  events.foldl step_history emptyHistory

/-- The verdicts of process_batch in input order: each event is evaluated
against its client's history as it stood before the event, then appended. -/
def run_detect (h : String → List ParsedLogEntry) :
    List ParsedLogEntry → List AnomalyResult
  | [] => []
  | e :: rest =>
      detect_anomalies e (h e.client_ip) :: run_detect (step_history h e) rest

/-- The last n elements of a list. -/
def lastN (n : Nat) (l : List α) : List α := l.drop (l.length - n)

/-- The flushed batches, mirroring the source's buffering loop: parsed
events accumulate in parsed_batch, a full buffer of 1000 is flushed, and
the final partial buffer is flushed at end of input (an empty one is not:
process_batch returns early on an empty batch). -/
def batchSplit (buf : List α) : List α → List (List α)
  | [] => if buf.isEmpty then [] else [buf]
  | e :: rest =>
      let buf2 := buf ++ [e]
      if 1000 ≤ buf2.length then buf2 :: batchSplit [] rest
      else batchSplit buf2 rest

/-- The durable state of one job as the pipeline sees it: the persisted
rows (each a parsed event with its verdict), the running total-entries
counter, the lifecycle status, and the persisted risk-score rows. -/
structure JobDB where
  entries : List (ParsedLogEntry × AnomalyResult)
  total_entries : Nat
  status : String
  risk_rows : List (String × RiskScore)
deriving DecidableEq, Repr

def initDB : JobDB := ⟨[], 0, "processing", []⟩

/-- One durable write: the k-th sink operation either applies its change
atomically or raises, leaving the durable state untouched.  The error
carries the state at raise time together with the poisoned flag: a failed
db.session.commit leaves the SQLAlchemy session in mandatory-rollback
state, and this code never issues the rollback, so every later session
use raises PendingRollbackError. -/
def sinkOp (ok : Nat → Bool) (k : Nat) (db : JobDB) (f : JobDB → JobDB) :
    Except (JobDB × Bool) JobDB :=
  if ok k then Except.ok (f db) else Except.error (db, true)

/-- Build the rows of one batch: per event, detect against the current
history, then append the event into the history. -/
def processRows (h : String → List ParsedLogEntry) :
    List ParsedLogEntry → List (ParsedLogEntry × AnomalyResult) × (String → List ParsedLogEntry)
  | [] => ([], h)
  | e :: rest =>
      let r := detect_anomalies e (h e.client_ip)
      let pr := processRows (step_history h e) rest
      ((e, r) :: pr.1, pr.2)

/-- Flush the batches in order: per batch one bulk-insert commit and one
progress-counter commit, threading the rolling history and the sink
operation counter. -/
def runBatches (ok : Nat → Bool) :
    List (List ParsedLogEntry) → JobDB → (String → List ParsedLogEntry) → Nat →
    Except (JobDB × Bool) (JobDB × (String → List ParsedLogEntry) × Nat)
  | [], db, h, k => Except.ok (db, h, k)
  | c :: cs, db, h, k => do
      let pr := processRows h c
      let db ← sinkOp ok k db fun d => { d with entries := d.entries ++ pr.1 }
      let db ← sinkOp ok (k + 1) db fun d => { d with total_entries := d.entries.length }
      runBatches ok cs db pr.2 (k + 2)

/-- The projection getAllEntries feeds to the aggregator. -/
def rowToRiskEntry (row : ParsedLogEntry × AnomalyResult) : RiskEntry :=
  { department := row.1.department
    client_ip := row.1.client_ip
    action := row.1.action
    is_anomalous := row.2.is_anomalous
    anomaly_type := row.2.anomaly_type }

/-- The try-block of _process_log_file: a corrupted declared-or-sniffed
archive raises ValueError before any durable write of this job (session
not poisoned), otherwise flush all batches, then persist the risk scores
together with the completed status in one final commit. -/
def pipelineBody (ok : Nat → Bool) (archiveOk : Bool) (parsed : List ParsedLogEntry) :
    Except (JobDB × Bool) JobDB :=
  if archiveOk then do
    let r ← runBatches ok (batchSplit [] parsed) initDB emptyHistory 0
    let db := r.1
    let scores := calculate_user_risk_scores (db.entries.map rowToRiskEntry)
    sinkOp ok r.2.2 db fun d => { d with risk_rows := scores, status := "completed" }
  else Except.error (initDB, false)

/-- _process_log_file with its except-handler (and the one of
_process_log_file_async): the handler sets status failed and commits,
deleting nothing.  When the raise came from a failed commit the session
is poisoned and the handler's own commit (and the async handler's query)
raises PendingRollbackError instead, so the durable state — including the
processing status — stays exactly as it was at the raise; only for an
exception that poisoned nothing (such as a corrupted archive) does the
failed status actually get written. -/
def process_log_file (ok : Nat → Bool) (archiveOk : Bool)
    (parsed : List ParsedLogEntry) : JobDB :=
  match pipelineBody ok archiveOk parsed with
  | Except.ok db => db
  | Except.error (db, poisoned) =>
      if poisoned then db else { db with status := "failed" }

/-! ## The spec wording of the burst window, and concrete inputs

claimWindowCount follows the specification text (history entries inside
the trailing five-minute window ending at the event timestamp, so with an
upper time bound); it is compared against the source's recentBlocked
filter, which has no upper bound. -/

/-- Modelled from the spec: count of history entries with action Blocked,
timestamp within the trailing 5-minute window ending at the event's
timestamp, sharing client address or department with the event. -/
def claimWindowCount (entry : ParsedLogEntry) (recent : List ParsedLogEntry) : Nat :=
  (recent.filter fun e =>
    decide ((entry.timestamp - 5 * 60 ≤ e.timestamp ∧ e.timestamp ≤ entry.timestamp) ∧
      e.action = "Blocked" ∧
      (e.client_ip = entry.client_ip ∨ e.department = entry.department))).length

/-- A benign parsed event used as the base of the concrete test inputs. -/
def baseEntry : ParsedLogEntry :=
  { timestamp := 0, location := "loc", protocol := "HTTPS", url := "example.org/page"
    domain := "example.org", action := "Allowed", app_name := "", app_class := ""
    throttle_req_size := 0, throttle_resp_size := 0, req_size := 100, resp_size := 200
    url_class := "", url_supercat := "", url_cat := "News", dlp_dict := "", dlp_eng := ""
    dlp_hits := 0, file_class := "", file_type := "", location2 := ""
    department := "Engineering", client_ip := "10.0.0.1", server_ip := "20.0.0.1"
    http_method := "GET", http_status := 200, user_agent := "Mozilla/5.0"
    threat_category := "", fw_filter := "", fw_rule := "", policy_type := "", reason := "" }

/-- A Blocked event at time 0. -/
def burstEntry : ParsedLogEntry := { baseEntry with action := "Blocked" }

/-- Nine Blocked same-client history entries one minute after the event. -/
def futureHist : List ParsedLogEntry :=
  List.replicate 9 { baseEntry with action := "Blocked", timestamp := 60 }

/-- Nine Blocked same-client history entries one minute before the event. -/
def inWindowHist : List ParsedLogEntry :=
  List.replicate 9 { baseEntry with action := "Blocked", timestamp := -60 }

/-- A Blocked same-client entry far in the future of time 0. -/
def farEntry : ParsedLogEntry :=
  { baseEntry with action := "Blocked", timestamp := 1000000 }

/-- Nine Blocked same-client history entries far in the future. -/
def farFutureHist : List ParsedLogEntry := List.replicate 9 farEntry

/-- An event whose domain is denylisted and whose category is also risky. -/
def malEntry : ParsedLogEntry :=
  { baseEntry with domain := "phishing-login.co", url := "phishing-login.co/x"
                   url_cat := "Malware" }

/-- One anomalous Blocked malicious-domain entry for the aggregator. -/
def riskEntries1 : List RiskEntry :=
  [{ department := "Engineering", client_ip := "10.0.0.5", action := "Blocked"
     is_anomalous := true, anomaly_type := some "malicious_domain" }]

def riskRow1 : RiskScore :=
  { user_identifier := "Engineering", risk_score := 35, anomaly_count := 1
    blocked_count := 1, malicious_domain_count := 1
    metadata := [("malicious_domain", 1)] }

/-- A sink behaviour whose third durable write fails. -/
def wOk : Nat → Bool := fun k => decide (k < 2)

/-- Three parsed events for the failing-pipeline run. -/
def wParsed : List ParsedLogEntry := [baseEntry, baseEntry, baseEntry]

/-- The job state the failing pipeline run raises with. -/
def wDB : JobDB :=
  match pipelineBody wOk true wParsed with
  | Except.error d => d.1
  | Except.ok _ => initDB

/-! ## Helper lemmas -/

lemma mkRat_eq_08 : (mkRat 8 10 : ℚ) = 0.8 := by norm_num [mkRat, Rat.normalize]

lemma mkRat_eq_095 : (mkRat 95 100 : ℚ) = 0.95 := by norm_num [mkRat, Rat.normalize]

lemma mem_iteSingleton {p : Prop} [Decidable p] {x r : AnomalyResult}
    (h : x ∈ (if p then [r] else [])) : x = r := by
  split at h
  · simpa using h
  · simp at h

lemma confKey_burst_le (e : ParsedLogEntry) (rec : List ParsedLogEntry) :
    confKey (detect_burst_blocked e rec) ≤ mkRat 8 10 := by
  simp only [detect_burst_blocked]
  split
  · simp only [confKey, Option.getD]
    decide
  · split
    · simp only [confKey, Option.getD]
      decide
    · simp only [confKey, Option.getD]
      decide

lemma pickBest_eq_self {c : AnomalyResult} : ∀ {rest : List AnomalyResult},
    (∀ r ∈ rest, confKey r ≤ confKey c) → pickBest c rest = c := by
  intro rest
  induction rest with
  | nil => intro _; rfl
  | cons r rs ih =>
      intro h
      unfold pickBest at ih ⊢
      simp only [List.foldl_cons]
      rw [if_neg (not_lt.mpr (h r (List.mem_cons_self r rs)))]
      exact ih fun x hx => h x (List.mem_cons_of_mem r hx)

/-! ## Claim theorems -/

/-- C2: an event whose domain is in the fixed denylist always gets the
malicious_domain verdict with confidence 0.95, whatever other rules also
fire; and an event matching none of the five rules gets the non-anomalous
verdict with no kind, no reason and no confidence. -/
theorem malicious_priority_and_empty_verdict (entry : ParsedLogEntry)
    (recent : List ParsedLogEntry) :
    (entry.domain ∈ MALICIOUS_DOMAINS →
      detect_anomalies entry recent =
        { is_anomalous := true
          anomaly_type := some "malicious_domain"
          reason := some ("Domain " ++ entry.domain ++ " is in malicious domains list")
          confidence := some 0.95 })
  ∧ (entry.domain ∉ MALICIOUS_DOMAINS → entry.url_cat ∉ RISKY_CATEGORIES →
     (UNUSUAL_UA_PATTERNS.any fun p => containsSub entry.user_agent p) = false →
     entry.resp_size ≤ LARGE_DOWNLOAD_THRESHOLD →
     (detect_burst_blocked entry recent).is_anomalous = false →
     detect_anomalies entry recent =
       { is_anomalous := false, anomaly_type := none, reason := none,
         confidence := none }) := by
  constructor
  · intro hmal
    rw [← mkRat_eq_095]
    simp only [detect_anomalies]
    rw [if_pos hmal]
    simp only [List.singleton_append]
    apply pickBest_eq_self
    intro r hr
    simp only [List.append_eq, List.mem_append] at hr
    rcases hr with ((hr | hr) | hr) | hr
    · rw [mem_iteSingleton hr]
      simp only [confKey, Option.getD]
      decide
    · rw [mem_iteSingleton hr]
      simp only [confKey, Option.getD]
      decide
    · rw [mem_iteSingleton hr]
      simp only [confKey, Option.getD]
      decide
    · rw [mem_iteSingleton hr]
      refine le_trans (confKey_burst_le entry recent) ?_
      simp only [confKey, Option.getD]
      decide
  · intro h1 h2 h3 h4 h5
    simp only [detect_anomalies, if_neg h1, if_neg h2, h3, h5,
      if_neg (not_lt.mpr h4), Bool.false_eq_true, if_false, List.nil_append]

/-- C2 witness: the malicious-domain case (with a risky category also
firing) and the no-rule case at concrete events. -/
theorem malicious_priority_witness :
    malEntry.domain ∈ MALICIOUS_DOMAINS ∧
    malEntry.url_cat ∈ RISKY_CATEGORIES ∧
    detect_anomalies malEntry [] =
      { is_anomalous := true
        anomaly_type := some "malicious_domain"
        reason := some ("Domain " ++ malEntry.domain ++ " is in malicious domains list")
        confidence := some 0.95 } ∧
    baseEntry.domain ∉ MALICIOUS_DOMAINS ∧
    detect_anomalies baseEntry [] =
      { is_anomalous := false, anomaly_type := none, reason := none,
        confidence := none } :=
  ⟨by decide, by decide,
   (malicious_priority_and_empty_verdict malEntry []).1 (by decide),
   by decide,
   (malicious_priority_and_empty_verdict baseEntry []).2 (by decide) (by decide)
     (by decide) (by decide) (by decide)⟩

/-- C1 (amended): for a Blocked event, the burst check produces the
burst_blocked verdict with confidence 0.8 exactly when the number of
Blocked history entries at or after the window start (with no upper time
bound) sharing client address or department, plus one for the current
event, reaches 10. -/
theorem burst_verdict_iff_count (entry : ParsedLogEntry)
    (recent : List ParsedLogEntry) (h : entry.action = "Blocked") :
    ((detect_burst_blocked entry recent).is_anomalous = true ∧
     (detect_burst_blocked entry recent).anomaly_type = some "burst_blocked" ∧
     (detect_burst_blocked entry recent).confidence = some 0.8)
    ↔ BURST_THRESHOLD ≤ (recentBlocked entry recent).length + 1 := by
  have h2 : ¬ (entry.action ≠ "Blocked") := by simp [h]
  rw [← mkRat_eq_08]
  simp only [detect_burst_blocked, if_neg h2]
  by_cases hth : BURST_THRESHOLD ≤ (recentBlocked entry recent).length + 1
  · rw [if_pos hth]
    simp [hth]
  · rw [if_neg hth]
    simp [hth]

/-- C1 witness: at time 0 with nine in-window Blocked same-client history
entries the burst verdict fires (ten events total), and with only eight
such entries it does not. -/
theorem burst_verdict_iff_count_witness :
    burstEntry.action = "Blocked" ∧
    BURST_THRESHOLD ≤ (recentBlocked burstEntry inWindowHist).length + 1 ∧
    (detect_burst_blocked burstEntry inWindowHist).is_anomalous = true ∧
    (detect_burst_blocked burstEntry inWindowHist).anomaly_type = some "burst_blocked" ∧
    ¬ ((detect_burst_blocked burstEntry (inWindowHist.take 8)).is_anomalous = true ∧
       (detect_burst_blocked burstEntry (inWindowHist.take 8)).anomaly_type =
         some "burst_blocked" ∧
       (detect_burst_blocked burstEntry (inWindowHist.take 8)).confidence = some 0.8) := by
  refine ⟨rfl, by decide, ?_, ?_, ?_⟩
  · exact ((burst_verdict_iff_count burstEntry inWindowHist rfl).mpr (by decide)).1
  · exact ((burst_verdict_iff_count burstEntry inWindowHist rfl).mpr (by decide)).2.1
  · intro hc
    exact absurd ((burst_verdict_iff_count burstEntry (inWindowHist.take 8) rfl).mp hc)
      (by decide)

/-- C1 counterexample: a Blocked event at time 0 with nine Blocked
same-client history entries one minute in the future gets the
burst_blocked verdict from detect, although only the current event lies
in the trailing five-minute window ending at its timestamp, so the
claim's qualifying count is 1, far below 10. -/
theorem burst_window_upper_bound_fails :
    burstEntry.action = "Blocked" ∧
    (detect_anomalies burstEntry futureHist).is_anomalous = true ∧
    (detect_anomalies burstEntry futureHist).anomaly_type = some "burst_blocked" ∧
    (detect_anomalies burstEntry futureHist).confidence = some 0.8 ∧
    claimWindowCount burstEntry futureHist + 1 = 1 ∧
    ¬ (10 ≤ claimWindowCount burstEntry futureHist + 1) := by
  refine ⟨rfl, by decide, by decide, ?_, by decide, by decide⟩
  have h : (detect_anomalies burstEntry futureHist).confidence = some (mkRat 8 10) := by
    decide
  rw [h, mkRat_eq_08]

/-- C10: the burst filter imposes only a lower time bound, so any Blocked
same-client history entry at or after the current event's timestamp —
arbitrarily far in the future — qualifies; with nine far-future Blocked
same-client entries the burst verdict fires. -/
theorem burst_window_no_upper_bound :
    (∀ (entry e : ParsedLogEntry) (recent : List ParsedLogEntry),
      e ∈ recent → e.action = "Blocked" → e.client_ip = entry.client_ip →
      entry.timestamp ≤ e.timestamp → e ∈ recentBlocked entry recent)
  ∧ (detect_anomalies burstEntry farFutureHist).is_anomalous = true
  ∧ (detect_anomalies burstEntry farFutureHist).anomaly_type = some "burst_blocked" := by
  refine ⟨?_, by decide, by decide⟩
  intro entry e recent hmem hact hip hts
  simp only [recentBlocked, List.mem_filter, decide_eq_true_eq, BURST_WINDOW_MINUTES]
  exact ⟨hmem, by omega, hact, Or.inl hip⟩

/-- C10 witness: one of the far-future Blocked entries qualifies for the
window filter of an event nine days (in fact arbitrarily) earlier. -/
theorem burst_window_no_upper_bound_witness :
    farEntry ∈ farFutureHist ∧ farEntry.action = "Blocked" ∧
    farEntry.client_ip = burstEntry.client_ip ∧
    burstEntry.timestamp ≤ farEntry.timestamp ∧
    farEntry ∈ recentBlocked burstEntry farFutureHist :=
  ⟨by decide, by decide, by decide, by decide,
   burst_window_no_upper_bound.1 burstEntry farEntry farFutureHist (by decide)
     (by decide) (by decide) (by decide)⟩

lemma flook_updAt (m : List (String × UserStats)) (uid0 uid : String) (e : RiskEntry) :
    flook (updAt m uid0 e) uid =
      if uid0 = uid then some (stepStats ((flook m uid).getD emptyStats) e)
      else flook m uid := by
  induction m with
  | nil =>
      by_cases h : uid0 = uid
      · simp [updAt, flook, h]
      · simp [updAt, flook, h]
  | cons kv rest ih =>
      obtain ⟨k, s⟩ := kv
      by_cases hk : k = uid0
      · subst hk
        simp only [updAt, if_pos rfl]
        by_cases hu : k = uid
        · subst hu
          simp [flook]
        · simp [flook, hu]
      · simp only [updAt, if_neg hk]
        by_cases hu : k = uid
        · subst hu
          have hne : uid0 ≠ k := fun h => hk h.symm
          simp [flook, if_neg hne]
        · simp only [flook, if_neg hu]
          rw [ih]

lemma user_stats_fold (entries : List RiskEntry) :
    ∀ (m : List (String × UserStats)) (uid : String),
    flook (entries.foldl (fun m e => updAt m (userIdOf e) e) m) uid =
      entries.foldl
        (fun o e => if userIdOf e = uid then some (stepStats (o.getD emptyStats) e) else o)
        (flook m uid) := by
  induction entries with
  | nil => intro m uid; rfl
  | cons e es ih =>
      intro m uid
      simp only [List.foldl_cons]
      rw [ih]
      congr 1
      exact flook_updAt m (userIdOf e) uid e

lemma optFold_some (uid : String) (entries : List RiskEntry) : ∀ (s : UserStats),
    entries.foldl
        (fun o e => if userIdOf e = uid then some (stepStats (o.getD emptyStats) e) else o)
        (some s) =
      some ((entries.filter fun e => decide (userIdOf e = uid)).foldl stepStats s) := by
  induction entries with
  | nil => intro s; rfl
  | cons e es ih =>
      intro s
      simp only [List.foldl_cons, List.filter_cons]
      by_cases h : userIdOf e = uid
      · rw [if_pos h]
        simp only [Option.getD_some, h, decide_True, if_true]
        rw [ih, List.foldl_cons]
      · rw [if_neg h]
        simp only [h, decide_False, Bool.false_eq_true, if_false]
        exact ih s

lemma user_stats_lookup (entries : List RiskEntry) (uid : String) :
    flook (user_stats entries) uid =
      if ∃ e ∈ entries, userIdOf e = uid then some (statsFor entries uid) else none := by
  unfold user_stats statsFor
  rw [user_stats_fold entries [] uid]
  show List.foldl _ none _ = _
  induction entries with
  | nil => simp
  | cons e es ih =>
      simp only [List.foldl_cons, List.filter_cons]
      by_cases h : userIdOf e = uid
      · rw [if_pos h]
        simp only [Option.getD_none]
        rw [optFold_some]
        have hex : ∃ x ∈ e :: es, userIdOf x = uid := ⟨e, List.mem_cons_self e es, h⟩
        rw [if_pos hex]
        simp only [h, decide_True, if_true, List.foldl_cons]
      · rw [if_neg h]
        rw [ih]
        simp only [h, decide_False, Bool.false_eq_true, if_false]
        by_cases hex : ∃ x ∈ es, userIdOf x = uid
        · rw [if_pos hex, if_pos (by
            obtain ⟨x, hx, hux⟩ := hex
            exact ⟨x, List.mem_cons_of_mem e hx, hux⟩)]
        · rw [if_neg hex, if_neg (by
            intro hc
            obtain ⟨x, hx, hux⟩ := hc
            rcases List.mem_cons.mp hx with rfl | hx2
            · exact h hux
            · exact hex ⟨x, hx2, hux⟩)]

lemma keys_updAt (m : List (String × UserStats)) (uid : String) (e : RiskEntry) :
    (updAt m uid e).map Prod.fst =
      if uid ∈ m.map Prod.fst then m.map Prod.fst else m.map Prod.fst ++ [uid] := by
  induction m with
  | nil => simp [updAt]
  | cons kv rest ih =>
      obtain ⟨k, s⟩ := kv
      by_cases hk : k = uid
      · subst hk
        simp [updAt]
      · have hne : uid ≠ k := fun h => hk h.symm
        simp only [updAt, if_neg hk, List.map_cons, ih, List.mem_cons]
        by_cases hm : uid ∈ rest.map Prod.fst
        · simp [hm, hne]
        · simp [hm, hne]

lemma keys_nodup (entries : List RiskEntry) :
    ∀ m : List (String × UserStats), (m.map Prod.fst).Nodup →
    ((entries.foldl (fun m e => updAt m (userIdOf e) e) m).map Prod.fst).Nodup := by
  induction entries with
  | nil => intro m h; exact h
  | cons e es ih =>
      intro m h
      simp only [List.foldl_cons]
      apply ih
      by_cases hm : userIdOf e ∈ m.map Prod.fst
      · rw [keys_updAt, if_pos hm]
        exact h
      · rw [keys_updAt, if_neg hm]
        simp [List.nodup_append, h, hm]

lemma flook_map_risk (m : List (String × UserStats)) (uid : String) :
    flook (m.map fun p => (p.1, risk_row p.1 p.2)) uid =
      (flook m uid).map (risk_row uid) := by
  induction m with
  | nil => rfl
  | cons kv rest ih =>
      obtain ⟨k, s⟩ := kv
      simp only [List.map_cons, flook]
      by_cases hk : k = uid
      · subst hk
        simp
      · simp [hk, ih]

/-- C7: the aggregator output holds exactly one risk-score row per
distinct user identity (department if non-empty, else the client address
string), and the row of an identity is computed from exactly the entries
whose own identity it is. -/
theorem one_score_per_identity (entries : List RiskEntry) (uid : String) :
    ((calculate_user_risk_scores entries).map Prod.fst).Nodup
  ∧ flook (calculate_user_risk_scores entries) uid =
      (if ∃ e ∈ entries, userIdOf e = uid
       then some (risk_row uid (statsFor entries uid)) else none) := by
  constructor
  · unfold calculate_user_risk_scores
    rw [List.map_map]
    have hc : (Prod.fst ∘ fun p : String × UserStats => (p.1, risk_row p.1 p.2)) =
        Prod.fst := rfl
    rw [hc]
    exact keys_nodup entries [] (by simp)
  · unfold calculate_user_risk_scores
    rw [flook_map_risk, user_stats_lookup]
    split
    · rfl
    · rfl

/-- C3: every risk-score row computes
min(100, min(a*10, 50) + min(b*5, 30) + min(m*20, 40)) from its own
tallies, hence lies in [0, 100]; tallies 10, 20, 5 give exactly 100. -/
theorem risk_score_formula (entries : List RiskEntry) (uid : String) (r : RiskScore)
    (h : flook (calculate_user_risk_scores entries) uid = some r) :
    (r.risk_score =
      min 100 (min (r.anomaly_count * 10) 50 + min (r.blocked_count * 5) 30 +
        min (r.malicious_domain_count * 20) 40)
     ∧ r.risk_score ≤ 100)
  ∧ risk_score_of ⟨10, 20, 5, 35, []⟩ = 100 := by
  refine ⟨?_, by decide⟩
  unfold calculate_user_risk_scores at h
  rw [flook_map_risk] at h
  cases hs : flook (user_stats entries) uid with
  | none =>
      rw [hs] at h
      cases h
  | some s =>
      rw [hs] at h
      have hr : risk_row uid s = r := Option.some.inj h
      subst hr
      constructor
      · show risk_score_of s = _
        unfold risk_score_of risk_row
        dsimp only
        omega
      · show risk_score_of s ≤ 100
        unfold risk_score_of
        dsimp only
        omega

/-- C3 witness: one malicious-domain Blocked entry yields the Engineering
row with score 35 = min(10,50) + min(5,30) + min(20,40) and the formula
holds of it. -/
theorem risk_score_formula_witness :
    flook (calculate_user_risk_scores riskEntries1) "Engineering" = some riskRow1 ∧
    (riskRow1.risk_score =
      min 100 (min (riskRow1.anomaly_count * 10) 50 + min (riskRow1.blocked_count * 5) 30 +
        min (riskRow1.malicious_domain_count * 20) 40)
     ∧ riskRow1.risk_score ≤ 100) :=
  ⟨by decide, (risk_score_formula riskEntries1 "Engineering" riskRow1 (by decide)).1⟩

/-- C6: domain extraction is total by construction and invariant under
prepending the http scheme to a scheme-less url; on the spec's examples it
yields example.com, with the port stripped. -/
theorem extract_domain_scheme_invariant (url : String) (h : has_scheme url = false) :
    extract_domain ("http://" ++ url) = extract_domain url
  ∧ extract_domain "example.com/path" = "example.com"
  ∧ extract_domain "http://example.com/path" = "example.com"
  ∧ extract_domain "http://example.com:8080/path" = "example.com" := by
  refine ⟨?_, by decide, by decide, by decide⟩
  by_cases hu : url = ""
  · subst hu
    decide
  · have hne : ("http://" ++ url) ≠ "" := by
      intro hh
      have hd := congrArg String.data hh
      rw [String.data_append] at hd
      simp at hd
    have hpre : has_scheme ("http://" ++ url) = true := by
      unfold has_scheme
      have hp : "http://".data.isPrefixOf ("http://" ++ url).data = true := by
        rw [List.isPrefixOf_iff_prefix, String.data_append]
        exact List.prefix_append _ _
      simp [hp]
    simp only [extract_domain, if_neg hne, if_neg hu, hpre, h, Bool.false_eq_true,
      if_true, if_false]

/-- C6 witness: the invariance instantiated at example.com/path. -/
theorem extract_domain_scheme_invariant_witness :
    has_scheme "example.com/path" = false ∧
    extract_domain ("http://" ++ "example.com/path") = extract_domain "example.com/path" :=
  ⟨by decide, (extract_domain_scheme_invariant "example.com/path" (by decide)).1⟩

lemma lastN_length_le (n : Nat) (l : List α) : (lastN n l).length ≤ n := by
  simp only [lastN, List.length_drop]
  omega

lemma lastN_step (l : List α) (e : α) :
    (if 20 < (lastN 20 l ++ [e]).length then (lastN 20 l ++ [e]).tail
     else lastN 20 l ++ [e]) = lastN 20 (l ++ [e]) := by
  unfold lastN
  by_cases hk : l.length < 20
  · have e1 : l.length - 20 = 0 := by omega
    rw [e1, List.drop_zero]
    rw [if_neg (by simp only [List.length_append, List.length_cons, List.length_nil]; omega)]
    have e2 : (l ++ [e]).length - 20 = 0 := by
      simp only [List.length_append, List.length_cons, List.length_nil]
      omega
    rw [e2, List.drop_zero]
  · push_neg at hk
    rw [if_pos (by
      simp only [List.length_append, List.length_drop, List.length_cons, List.length_nil]
      omega)]
    have h1 : 1 ≤ (l.drop (l.length - 20)).length := by
      simp only [List.length_drop]
      omega
    rw [← List.drop_one, List.drop_append_of_le_length h1, List.drop_drop]
    rw [List.drop_append_of_le_length (by
      simp only [List.length_append, List.length_cons, List.length_nil]
      omega)]
    have hidx : l.length - 20 + 1 = (l ++ [e]).length - 20 := by
      simp only [List.length_append, List.length_cons, List.length_nil]
      omega
    rw [hidx]

lemma step_history_apply (h : String → List ParsedLogEntry) (e : ParsedLogEntry)
    (ip : String) :
    step_history h e ip =
      if ip = e.client_ip then
        (if 20 < (h e.client_ip ++ [e]).length then (h e.client_ip ++ [e]).tail
         else h e.client_ip ++ [e])
      else h ip := rfl

lemma run_history_eq (events : List ParsedLogEntry) (ip : String) :
    run_history events ip = lastN 20 (events.filter fun e => decide (e.client_ip = ip)) := by
  induction events using List.reverseRecOn with
  | nil => rfl
  | append_singleton es e ih =>
      simp only [run_history]
      rw [List.foldl_append, List.foldl_cons, List.foldl_nil, step_history_apply]
      by_cases hip : ip = e.client_ip
      · subst hip
        rw [if_pos rfl]
        rw [show List.foldl step_history emptyHistory es = run_history es from rfl, ih]
        rw [List.filter_append]
        simp only [List.filter_cons, List.filter_nil, decide_True, if_true]
        exact lastN_step _ e
      · rw [if_neg hip]
        rw [show List.foldl step_history emptyHistory es = run_history es from rfl, ih]
        rw [List.filter_append]
        have hne : (decide (e.client_ip = ip)) = false := by
          simp only [decide_eq_false_iff_not]
          exact fun hc => hip hc.symm
        simp [List.filter_cons, hne]

lemma run_detect_get (pre : List ParsedLogEntry) (e : ParsedLogEntry)
    (post : List ParsedLogEntry) :
    ∀ h : String → List ParsedLogEntry,
    (run_detect h (pre ++ e :: post)).get? pre.length =
      some (detect_anomalies e ((List.foldl step_history h pre) e.client_ip)) := by
  induction pre with
  | nil => intro h; rfl
  | cons p ps ih =>
      intro h
      show (run_detect h (p :: (ps ++ e :: post))).get? (ps.length + 1) = _
      simp only [run_detect, List.get?_cons_succ, List.foldl_cons]
      exact ih (step_history h p)

/-- C8: after any event sequence of one job, each client's rolling history
is exactly the most recent at-most-20 events of that client in input
order (so the cap holds and the oldest entries were evicted), and the
verdict of the event at any position was computed against the history of
the events before it. -/
theorem rolling_history_model (events : List ParsedLogEntry) (ip : String) :
    run_history events ip = lastN 20 (events.filter fun e => decide (e.client_ip = ip))
  ∧ (run_history events ip).length ≤ 20
  ∧ ∀ pre e post, events = pre ++ e :: post →
      (run_detect emptyHistory events).get? pre.length =
        some (detect_anomalies e
          (lastN 20 (pre.filter fun x => decide (x.client_ip = e.client_ip)))) := by
  refine ⟨run_history_eq events ip, ?_, ?_⟩
  · rw [run_history_eq]
    exact lastN_length_le 20 _
  · intro pre e post hsplit
    subst hsplit
    rw [run_detect_get pre e post emptyHistory]
    rw [show List.foldl step_history emptyHistory pre = run_history pre from rfl,
      run_history_eq pre e.client_ip]

/-- C8 witness: with two same-client events, the second one's verdict is
computed against the history holding exactly the first. -/
theorem rolling_history_model_witness :
    ([baseEntry, farEntry] : List ParsedLogEntry) = [baseEntry] ++ farEntry :: [] ∧
    (run_detect emptyHistory [baseEntry, farEntry]).get? 1 =
      some (detect_anomalies farEntry
        (lastN 20 ([baseEntry].filter fun x => decide (x.client_ip = farEntry.client_ip)))) :=
  ⟨rfl, (rolling_history_model [baseEntry, farEntry] "10.0.0.1").2.2
    [baseEntry] farEntry [] rfl⟩

/-- C9 (code bug): the handler means to mark the job failed on any
exception, and does so when the raise poisoned nothing (corrupted
archive), deleting nothing either way — but when a durable commit itself
fails, the session needs a rollback the code never issues, so the
handler's own commit raises and the run in which three events flush as
one batch (two successful commits) and the risk-score-and-completion
commit fails leaves the job stuck at processing (neither failed nor
completed) with its three persisted rows and total-entries 3 intact. -/
theorem sink_failure_leaves_processing :
    pipelineBody wOk true wParsed = Except.error (wDB, true) ∧
    process_log_file wOk true wParsed = wDB ∧
    (process_log_file wOk true wParsed).status = "processing" ∧
    (process_log_file wOk true wParsed).status ≠ "failed" ∧
    (process_log_file wOk true wParsed).status ≠ "completed" ∧
    (process_log_file wOk true wParsed).total_entries = 3 ∧
    (process_log_file wOk true wParsed).entries = wDB.entries ∧
    process_log_file wOk false wParsed = { initDB with status := "failed" } :=
  ⟨rfl, rfl, by decide, by decide, by decide, by decide, rfl, rfl⟩
